import Mathlib

/-! Durable queue and lease registry of the judge API (`api/database.go`).

A shallow embedding of the queue (`pushTask`, `popTask`), the orchestrator
(`fetchSubmission`, `toWaitingJudge`) and the lease protocol
(`updateSubmissionRegistration`) over an explicit store state.

Modelling conventions:

* the relational store is a record of tables, each table a list of rows;
* every operation is one atomic transaction: it receives the store and returns
  the store it leaves behind (unchanged when the transaction rolls back);
* `time.Now()` is the parameter `now`; instants are integers counting
  nanoseconds since the Unix epoch, durations are integers of nanoseconds;
* Go's `int32`/`int64` fields are integers (no arithmetic is done on them);
* Go's `error` is `Option String`, `none` being `nil`;
* the store keeps instants exactly as they are written and compares them as
  integers;
* primary keys address rows: `Take(&sub, id)` reads the row with key `id`,
  `Model(&sub).Updates` and `Delete(task)` act on the rows carrying the key;
* errors reported by the store (connection loss, refused statement, failed
  commit or rollback) are inputs, collected in `Faults`.
-/

namespace LibraryChecker

/-- Instants: nanoseconds since the Unix epoch. -/
abbrev Time := Int

/-- Go `time.Duration`: nanoseconds. -/
abbrev Duration := Int

/-- Go `error`: `none` is `nil`. -/
abbrev Error := Option String

/-- The zero value of `time.Time` (January 1, year 1, 00:00:00 UTC). -/
def zeroTime : Time := -62135596800000000000

/-- Problem is db table. -/
structure Problem where
  Name : String := ""
  Title : String := ""
  Statement : String := ""
  Timelimit : Int := 0
  Testhash : String := ""
deriving DecidableEq, Repr

/-- User is db table. -/
structure User where
  Name : String := ""
  Passhash : String := ""
  Admin : Bool := false
deriving DecidableEq, Repr

/-- Go `sql.NullString`. -/
structure NullString where
  String : String := ""
  Valid : Bool := false
deriving DecidableEq, Repr

/-- Submission is db table. `Problem` and `User` are the associations that
`Preload` fills in; stored rows carry their zero values. -/
structure Submission where
  ID : Int := 0
  ProblemName : String := ""
  Problem : Problem := {}
  Lang : String := ""
  Status : String := ""
  PrevStatus : String := ""
  Hacked : Bool := false
  Source : String := ""
  Testhash : String := ""
  MaxTime : Int := 0
  MaxMemory : Int := 0
  JudgePing : Time := zeroTime
  JudgeName : String := ""
  JudgeTasked : Bool := false
  UserName : NullString := {}
  User : User := {}
deriving DecidableEq, Repr

/-- Task is db table. -/
structure Task where
  ID : Int := 0
  Submission : Int := 0
  Priority : Int := 0
  Available : Time := zeroTime
deriving DecidableEq, Repr

/-- The store: its tables, and the last value handed out by the sequence behind
the serial primary key of the task table. -/
structure DB where
  problems : List Problem := []
  users : List User := []
  submissions : List Submission := []
  tasks : List Task := []
  taskSeq : Nat := 0
deriving DecidableEq, Repr

/-- Errors the store reports during one operation. `query`: the read statement
fails with an error other than record-not-found; `update`, `insert`, `delete`:
the write statement reports an error (for a statement run outside an explicit
transaction this covers the commit wrapped around it); `commit`: the explicit
`tx.Commit()` fails; `rollback`: the error reported by `Rollback`, if any. -/
structure Faults where
  query : Bool := false
  update : Bool := false
  insert : Bool := false
  delete : Bool := false
  commit : Bool := false
  rollback : Error := none
deriving DecidableEq, Repr

/-- The store answers every statement. -/
def noFaults : Faults := {}

/-- Go `RegistrationStatus` with its six named values. -/
inductive RegistrationStatus where
  | Undefined
  | Register
  | Update
  | OverWrite
  | Occupied
  | Finished
deriving DecidableEq, Repr

open RegistrationStatus (Undefined Register Update OverWrite Occupied Finished)

/-- Go `func (status RegistrationStatus) String() string`. -/
def RegistrationStatus.String : RegistrationStatus → String
  | Undefined => "Undefined"
  | Register => "Register"
  | Update => "Update"
  | OverWrite => "OverWrite"
  | Occupied => "Occupied"
  | Finished => "Finished"

/-! ## Store primitives -/

/-- Row of the submission table with primary key `id` (`Take(&sub, id)`,
`Where("id = ?", id).First(&sub)`). -/
def takeSubmission (db : DB) (id : Int) : Option Submission :=
  db.submissions.find? (fun s => decide (s.ID = id))

/-- Go `Model(&Submission{ID: id}).Updates(...)`: apply `upd` to every row whose
primary key is `id`. -/
def updateSubmissions (db : DB) (id : Int) (upd : Submission → Submission) : DB :=
  { db with submissions := db.submissions.map (fun s => if s.ID = id then upd s else s) }

/-- Go `Preload("Problem", ... Select("name, title, testhash"))`: no lookup on a blank
`ProblemName`; every row found is assigned to the field in turn, so the last one
stays. -/
def preloadProblem (db : DB) (name : String) : Problem :=
  if name = "" then {}
  else
    match (db.problems.filter (fun p => decide (p.Name = name))).getLast? with
    | some p => { Name := p.Name, Title := p.Title, Testhash := p.Testhash }
    | none => {}

/-- Go `Preload("User", ... Select("name"))`: no lookup on a blank `UserName`, no row
for a null one; every row found is assigned to the field in turn, so the last one
stays. -/
def preloadUser (db : DB) (name : NullString) : User :=
  if name = {} then {}
  else if name.Valid then
    match (db.users.filter (fun u => decide (u.Name = name.String))).getLast? with
    | some u => { Name := u.Name }
    | none => {}
  else {}

/-- Row order of `Order("priority desc").First(&task)`: priority descending, then
primary key ascending (`First` appends the primary key as last ordering key). -/
def before (a b : Task) : Bool :=
  decide (b.Priority < a.Priority) || (decide (a.Priority = b.Priority) && decide (a.ID < b.ID))

/-- First row of a result set in the order `before` (`LIMIT 1`). -/
def firstTask : List Task → Option Task
  | [] => none
  | t :: ts =>
    match firstTask ts with
    | none => some t
    | some b => if before b t then some b else some t

/-- Rows visible to a dequeue at `now`: `Where("available <= ?", time.Now())`. -/
def eligible (db : DB) (now : Time) : List Task :=
  db.tasks.filter (fun t => decide (t.Available ≤ now))

/-- Primary key the store gives to a created task: the next sequence value when
the caller left `ID` blank, the caller's `ID` otherwise. -/
def createdID (db : DB) (task : Task) : Int :=
  if task.ID = 0 then (db.taskSeq : Int) + 1 else task.ID

/-- The row that `db.Create(&task)` inserts. -/
def createdRow (db : DB) (task : Task) : Task :=
  { task with ID := createdID db task }

/-- Go `db.Create(&task)`: insert the row; the insert is refused when the primary key
is already taken. A blank `ID` consumes a sequence value either way. -/
def createTask (db : DB) (task : Task) : DB × Bool :=
  let seq := if task.ID = 0 then db.taskSeq + 1 else db.taskSeq
  if db.tasks.any (fun t => decide (t.ID = createdID db task)) then
    ({ db with taskSeq := seq }, false)
  else
    ({ db with tasks := db.tasks ++ [createdRow db task], taskSeq := seq }, true)

/-! ## Operations of `database.go` -/

/-- Go `fetchSubmission(id)`. -/
def fetchSubmission (db : DB) (f : Faults) (id : Int) : Submission × Error :=
  if f.query then ({}, some "Submission fetch failed")
  else
    match takeSubmission db id with
    | none => ({}, some "Submission fetch failed")
    | some sub =>
      ({ sub with
          User := preloadUser db sub.UserName,
          Problem := preloadProblem db sub.ProblemName }, none)

/-- Go `pushTask(task)`. -/
def pushTask (db : DB) (f : Faults) (task : Task) : DB × Error :=
  if f.insert then (db, some "Cannot insert into queue")
  else
    match createTask db task with
    | (db', true) => (db', none)
    | (db', false) => (db', some "Cannot insert into queue")

/-- The empty result of a dequeue, `Task{Submission: -1}`. -/
def emptyTask : Task := { Submission := -1 }

/-- Result of `popTask`: the two Go return values and the store left behind. -/
structure PopResult where
  task : Task
  err : Error
  db : DB
deriving DecidableEq, Repr

/-- Go `popTask()`; `now` is the reading of `time.Now()` in the query. -/
def popTask (db : DB) (f : Faults) (now : Time) : PopResult :=
  if f.query then
    { task := {}, err := some "Connection to db failed", db := db }
  else
    match firstTask (eligible db now) with
    | none => { task := emptyTask, err := f.rollback, db := db }
    | some task =>
      let rowsAffected : Nat :=
        if f.delete then 0 else (db.tasks.filter (fun t => decide (t.ID = task.ID))).length
      if rowsAffected ≠ 1 then
        { task := emptyTask, err := f.rollback, db := db }
      else if f.commit then
        { task := {}, err := some "Commit to db failed", db := db }
      else
        { task := task, err := none,
          db := { db with tasks := db.tasks.filter (fun t => decide (t.ID ≠ task.ID)) } }

/-- Go `toWaitingJudge(id, priority, after)`; `now` is the reading of `time.Now()`.
The column map gives `judge_ping` the layout text `time.UnixDate`; a text cannot be
set on the `time.Time` field `JudgePing`, so the statement carries the value the
field has in the model `Submission{ID: id}`, the zero time. -/
def toWaitingJudge (db : DB) (f : Faults) (id : Int) (priority : Int) (after : Duration)
    (now : Time) : DB × Error :=
  match fetchSubmission db f id with
  | (_, some err) => (db, some err)
  | (sub, none) =>
    if f.update then (db, some "Failed to clear judge_name")
    else
      let db1 := updateSubmissions db id (fun s =>
        { s with PrevStatus := sub.Status, JudgeName := "#dummy", JudgePing := zeroTime })
      match pushTask db1 f { Submission := id, Available := now + after, Priority := priority } with
      | (db2, some _) => (db2, some "Cannot insert into queue")
      | (db2, none) => (db2, none)

/-- The column map `{"judge_name": judgeName, "judge_ping": expiry}` applied to a row. -/
def leased (judgeName : String) (expiry : Time) (s : Submission) : Submission :=
  { s with JudgeName := judgeName, JudgePing := expiry }

/-- Result of `updateSubmissionRegistration`: the two Go return values and the
store left behind. -/
structure ClaimResult where
  status : RegistrationStatus
  err : Error
  db : DB
deriving DecidableEq, Repr

/-- Go `updateSubmissionRegistration(id, judgeName, expiration)`; `now` is the
reading of `time.Now()`. -/
def updateSubmissionRegistration (db : DB) (f : Faults) (id : Int) (judgeName : String)
    (expiration : Duration) (now : Time) : ClaimResult :=
  if f.query then
    { status := Undefined, err := some "Submission fetch failed", db := db }
  else
    match takeSubmission db id with
    | none => { status := Undefined, err := some "Submission fetch failed", db := db }
    | some sub =>
      if sub.JudgeName = "" then
        { status := Finished, err := f.rollback, db := db }
      else
        let registered : Bool := decide (sub.JudgeName ≠ "") && decide (now < sub.JudgePing)
        if registered && decide (sub.JudgeName ≠ judgeName) then
          { status := Occupied, err := f.rollback, db := db }
        else
          let myself : Bool := registered && decide (sub.JudgeName = judgeName)
          if f.update then
            { status := Undefined, err := some "Submission update failed", db := db }
          else if f.commit then
            { status := Undefined, err := some "Transaction commit failed", db := db }
          else
            { status := if myself then Update else Register, err := none,
              db := updateSubmissions db sub.ID (leased judgeName (now + expiration)) }

/-! ## Sequences of calls -/

/-- One `Claim` call: its arguments, the clock reading and the store's faults. -/
structure ClaimCall where
  judgeName : String
  expiration : Duration
  now : Time
  faults : Faults := {}
deriving DecidableEq, Repr

/-- Run `Claim` calls on submission `id` one after the other; the results in call order. -/
def runClaims (db : DB) (id : Int) : List ClaimCall → List ClaimResult
  | [] => []
  | c :: cs =>
    let r := updateSubmissionRegistration db c.faults id c.judgeName c.expiration c.now
    r :: runClaims r.db id cs

/-- The store after a sequence of `Claim` calls on submission `id`. -/
def afterClaims (db : DB) (id : Int) : List ClaimCall → DB
  | [] => db
  | c :: cs =>
    afterClaims (updateSubmissionRegistration db c.faults id c.judgeName c.expiration c.now).db id cs

/-- One `Dequeue` call: the clock reading and the store's faults. -/
structure PopCall where
  now : Time
  faults : Faults := {}
deriving DecidableEq, Repr

/-- Run `Dequeue` calls one after the other; the results in call order. -/
def runPops (db : DB) : List PopCall → List PopResult
  | [] => []
  | c :: cs =>
    let r := popTask db c.faults c.now
    r :: runPops r.db cs

/-- A dequeue result that hands out a task: no error and not the empty result. -/
def PopResult.valid (r : PopResult) : Bool :=
  decide (r.err = none) && decide (r.task ≠ emptyTask)

/-- The tasks handed out by a list of dequeue results. -/
def handedOut (rs : List PopResult) : List Task :=
  (rs.filter PopResult.valid).map PopResult.task

/-- Expiry recorded on submission `id`, when the row exists. -/
def expiryOf (db : DB) (id : Int) : Option Time :=
  (takeSubmission db id).map Submission.JudgePing

/-- Worker `w` holds a live lease on submission `id` at `now`: the recorded holder
is `w`, a non-empty name, and the expiry is strictly after `now`. -/
def liveLease (db : DB) (id : Int) (w : String) (now : Time) : Bool :=
  match takeSubmission db id with
  | some sub => decide (sub.JudgeName = w) && decide (w ≠ "") && decide (now < sub.JudgePing)
  | none => false

/-- The store answers the statements of a `Claim`. -/
def Faults.claimOk (f : Faults) : Bool :=
  !f.query && !f.update && !f.commit

/-- A sequence of renewals: every call is made by `w`, while `w` holds a live lease
in the store as the preceding calls left it, and the store answers. -/
def renewing (id : Int) (w : String) : DB → List ClaimCall → Bool
  | _, [] => true
  | db, c :: cs =>
    decide (c.judgeName = w) && liveLease db id w c.now && c.faults.claimOk &&
      renewing id w (updateSubmissionRegistration db c.faults id c.judgeName c.expiration c.now).db cs

/-- The steps of a sequence of `Claim` calls on submission `id`: for each call the
expiry before it, the call, and its result. -/
def claimSteps (db : DB) (id : Int) : List ClaimCall → List (Option Time × ClaimCall × ClaimResult)
  | [] => []
  | c :: cs =>
    let r := updateSubmissionRegistration db c.faults id c.judgeName c.expiration c.now
    (expiryOf db id, c, r) :: claimSteps r.db id cs

/-! ## Sample stores -/

/-- A submission under judgement: holder `judge-a`, lease valid until instant 100. -/
def leasedSub : Submission :=
  { ID := 1, ProblemName := "aplusb", Lang := "cpp", Status := "WJ",
    JudgeName := "judge-a", JudgePing := 100 }

/-- A submission with no recorded holder. -/
def finishedSub : Submission :=
  { ID := 2, ProblemName := "aplusb", Lang := "cpp", Status := "AC", JudgeName := "" }

/-- A store holding the two sample submissions and an empty queue. -/
def leaseDB : DB := { submissions := [leasedSub, finishedSub] }

/-- Two renewals of the sample lease by `judge-a`, at instants 50 and 70, each for 60. -/
def sampleRenewals : List ClaimCall :=
  [{ judgeName := "judge-a", expiration := 60, now := 50 },
   { judgeName := "judge-a", expiration := 60, now := 70 }]

/-- The store answers the statements of `toWaitingJudge` and the primary key of the
next task is free. -/
def waitingOk (db : DB) (f : Faults) : Bool :=
  !f.query && !f.update && !f.insert &&
    !db.tasks.any (fun t => decide (t.ID = (db.taskSeq : Int) + 1))

/-- The write of `toWaitingJudge` on a submission row. -/
def waiting (status : String) (s : Submission) : Submission :=
  { s with PrevStatus := status, JudgeName := "#dummy", JudgePing := zeroTime }

/-- A queue of three tasks with priorities 5, 1, 9, all available from instant 0. -/
def priorityDB : DB :=
  { tasks := [{ ID := 1, Submission := 11, Priority := 5, Available := 0 },
              { ID := 2, Submission := 12, Priority := 1, Available := 0 },
              { ID := 3, Submission := 13, Priority := 9, Available := 0 }],
    taskSeq := 3 }

/-- Three dequeues at instants 10, 20 and 30, the store answering. -/
def threePops : List PopCall := [{ now := 10 }, { now := 20 }, { now := 30 }]

/-- A queue holding one task that becomes available at instant 100. -/
def delayedDB : DB :=
  { tasks := [{ ID := 1, Submission := 11, Priority := 5, Available := 100 }], taskSeq := 1 }

/-- A task for submission 12, priority 7, available from instant 60, key left blank. -/
def delayedTask : Task := { Submission := 12, Priority := 7, Available := 60 }

/-! ## Lemmas on the store primitives -/

theorem firstTask_eq_none {l : List Task} : firstTask l = none ↔ l = [] := by
  cases l with
  | nil => simp [firstTask]
  | cons t ts =>
    simp only [firstTask]
    cases h : firstTask ts with
    | none => simp
    | some b => by_cases hb : before b t = true <;> simp [hb]

theorem firstTask_mem {l : List Task} {t : Task} (h : firstTask l = some t) : t ∈ l := by
  induction l generalizing t with
  | nil => simp [firstTask] at h
  | cons a as ih =>
    simp only [firstTask] at h
    cases hb : firstTask as with
    | none =>
      rw [hb] at h
      simp only [Option.some.injEq] at h
      simp [h]
    | some b =>
      rw [hb] at h
      by_cases hc : before b a = true
      · simp only [hc, if_true, Option.some.injEq] at h
        subst h
        exact List.mem_cons_of_mem _ (ih hb)
      · simp only [hc, Option.some.injEq] at h
        simp at h
        simp [h]

theorem firstTask_priority {l : List Task} {t : Task} (h : firstTask l = some t) :
    ∀ x ∈ l, x.Priority ≤ t.Priority := by
  induction l generalizing t with
  | nil => simp
  | cons a as ih =>
    simp only [firstTask] at h
    cases hb : firstTask as with
    | none =>
      rw [hb] at h
      simp only [Option.some.injEq] at h
      have hnil : as = [] := firstTask_eq_none.mp hb
      subst hnil
      subst h
      simp
    | some b =>
      rw [hb] at h
      have hmax := ih hb
      by_cases hc : before b a = true
      · simp only [hc, if_true, Option.some.injEq] at h
        subst h
        intro x hx
        rcases List.mem_cons.mp hx with rfl | hx
        · simp only [before, Bool.or_eq_true, Bool.and_eq_true, decide_eq_true_eq] at hc
          rcases hc with hc | ⟨hc, _⟩ <;> omega
        · exact hmax x hx
      · simp only [hc, Option.some.injEq] at h
        simp at h
        subst h
        intro x hx
        rcases List.mem_cons.mp hx with rfl | hx
        · exact le_refl _
        · have := hmax x hx
          simp only [before, Bool.or_eq_true, Bool.and_eq_true, decide_eq_true_eq, not_or,
            not_and, not_lt] at hc
          omega

theorem takeSubmission_ID {db : DB} {id : Int} {sub : Submission}
    (h : takeSubmission db id = some sub) : sub.ID = id := by
  have := List.find?_some h
  simpa using this

theorem find_map_update (l : List Submission) (id : Int) (upd : Submission → Submission)
    (hupd : ∀ s, (upd s).ID = s.ID) :
    (l.map (fun s => if s.ID = id then upd s else s)).find? (fun s => decide (s.ID = id))
      = (l.find? (fun s => decide (s.ID = id))).map upd := by
  induction l with
  | nil => simp
  | cons a as ih =>
    by_cases ha : a.ID = id
    · simp [List.find?, ha, hupd]
    · simp only [List.map_cons, ha, if_false, List.find?, decide_False] 
      exact ih

theorem takeSubmission_update (db : DB) (id : Int) (upd : Submission → Submission)
    (hupd : ∀ s, (upd s).ID = s.ID) :
    takeSubmission (updateSubmissions db id upd) id = (takeSubmission db id).map upd := by
  simp only [takeSubmission, updateSubmissions]
  exact find_map_update _ _ _ hupd

/-! ## The lease protocol, one call -/

theorem claim_unfold (db : DB) (f : Faults) (id : Int) (w : String) (d : Duration) (now : Time)
    (sub : Submission) (hrow : takeSubmission db id = some sub) (hq : f.query = false) :
    updateSubmissionRegistration db f id w d now =
      if sub.JudgeName = "" then
        { status := Finished, err := f.rollback, db := db }
      else if now < sub.JudgePing ∧ sub.JudgeName ≠ w then
        { status := Occupied, err := f.rollback, db := db }
      else if f.update = true then
        { status := Undefined, err := some "Submission update failed", db := db }
      else if f.commit = true then
        { status := Undefined, err := some "Transaction commit failed", db := db }
      else
        { status := if now < sub.JudgePing ∧ sub.JudgeName = w then Update else Register,
          err := none, db := updateSubmissions db id (leased w (now + d)) } := by
  have hid : sub.ID = id := takeSubmission_ID hrow
  simp only [updateSubmissionRegistration, hq, hrow, hid]
  by_cases h1 : sub.JudgeName = ""
  · simp [h1]
  · by_cases h3 : sub.JudgeName = w
    · subst h3
      by_cases h2 : now < sub.JudgePing <;> simp [h1, h2]
    · by_cases h2 : now < sub.JudgePing <;> simp [h1, h2, h3]

theorem claim_query_fault (db : DB) (f : Faults) (id : Int) (w : String) (d : Duration)
    (now : Time) (hq : f.query = true) :
    updateSubmissionRegistration db f id w d now =
      { status := Undefined, err := some "Submission fetch failed", db := db } := by
  simp [updateSubmissionRegistration, hq]

theorem claim_no_row (db : DB) (f : Faults) (id : Int) (w : String) (d : Duration)
    (now : Time) (hrow : takeSubmission db id = none) :
    updateSubmissionRegistration db f id w d now =
      { status := Undefined, err := some "Submission fetch failed", db := db } := by
  by_cases hq : f.query = true
  · exact claim_query_fault db f id w d now hq
  · simp [updateSubmissionRegistration, hq, hrow]

theorem takeSubmission_leased (db : DB) (id : Int) (w : String) (e : Time) :
    takeSubmission (updateSubmissions db id (leased w e)) id
      = (takeSubmission db id).map (leased w e) :=
  takeSubmission_update db id _ (fun _ => rfl)

theorem claim_other_worker (db : DB) (id : Int) (sub : Submission) (now : Time)
    (hrow : takeSubmission db id = some sub) (hA : sub.JudgeName ≠ "")
    (hlive : now < sub.JudgePing) (f : Faults) (B : String) (d : Duration)
    (hB : B ≠ sub.JudgeName) :
    (f.query = false → (updateSubmissionRegistration db f id B d now).status = Occupied) ∧
    (updateSubmissionRegistration db f id B d now).status ≠ Register ∧
    (updateSubmissionRegistration db f id B d now).status ≠ Update ∧
    (updateSubmissionRegistration db f id B d now).db = db := by
  have hB' : sub.JudgeName ≠ B := fun h => hB h.symm
  by_cases hq : f.query = true
  · rw [claim_query_fault db f id B d now hq]
    simp [hq]
  · have hq' : f.query = false := by simpa using hq
    rw [claim_unfold db f id B d now sub hrow hq']
    simp [hA, hlive, hB']

/-- C1, mutual exclusion of Claim. On a submission whose recorded holder is a
non-empty name and whose expiry is strictly after the clock reading, a Claim by any
other worker name, with any lease duration and whatever the store's faults, never
returns Register or Update and leaves the store (so holder and expiry) unchanged;
it returns Occupied as soon as the row is read. A Claim that returns Register or
Update in that state is a Claim by the holder itself, and the holder's Claim does
succeed (Update) when the store answers. -/
theorem claim_mutual_exclusion (db : DB) (id : Int) (sub : Submission) (now : Time)
    (hrow : takeSubmission db id = some sub) (hA : sub.JudgeName ≠ "")
    (hlive : now < sub.JudgePing) :
    (∀ (f : Faults) (B : String) (d : Duration), B ≠ sub.JudgeName →
        (f.query = false → (updateSubmissionRegistration db f id B d now).status = Occupied) ∧
        (updateSubmissionRegistration db f id B d now).status ≠ Register ∧
        (updateSubmissionRegistration db f id B d now).status ≠ Update ∧
        (updateSubmissionRegistration db f id B d now).db = db ∧
        takeSubmission (updateSubmissionRegistration db f id B d now).db id = some sub) ∧
    (∀ (f : Faults) (w : String) (d : Duration),
        ((updateSubmissionRegistration db f id w d now).status = Register ∨
          (updateSubmissionRegistration db f id w d now).status = Update) →
        w = sub.JudgeName) ∧
    (∀ d : Duration,
        (updateSubmissionRegistration db noFaults id sub.JudgeName d now).status = Update) := by
  have key := claim_other_worker db id sub now hrow hA hlive
  refine ⟨?_, ?_, ?_⟩
  · intro f B d hB
    obtain ⟨h1, h2, h3, h4⟩ := key f B d hB
    exact ⟨h1, h2, h3, h4, by rw [h4]; exact hrow⟩
  · intro f w d hw
    by_contra hne
    obtain ⟨_, h2, h3, _⟩ := key f w d hne
    rcases hw with hw | hw
    · exact h2 hw
    · exact h3 hw
  · intro d
    rw [claim_unfold db noFaults id sub.JudgeName d now sub hrow rfl]
    simp [hA, hlive, noFaults]

/-- Witness of C1: the sample submission leased to `judge-a` until instant 100,
read at instant 50. -/
theorem claim_mutual_exclusion_witness :
    takeSubmission leaseDB 1 = some leasedSub ∧ leasedSub.JudgeName ≠ "" ∧
    (50 : Time) < leasedSub.JudgePing ∧
    (∀ (f : Faults) (B : String) (d : Duration), B ≠ leasedSub.JudgeName →
        (f.query = false →
          (updateSubmissionRegistration leaseDB f 1 B d 50).status = Occupied) ∧
        (updateSubmissionRegistration leaseDB f 1 B d 50).status ≠ Register ∧
        (updateSubmissionRegistration leaseDB f 1 B d 50).status ≠ Update ∧
        (updateSubmissionRegistration leaseDB f 1 B d 50).db = leaseDB ∧
        takeSubmission (updateSubmissionRegistration leaseDB f 1 B d 50).db 1
          = some leasedSub) ∧
    (∀ (f : Faults) (w : String) (d : Duration),
        ((updateSubmissionRegistration leaseDB f 1 w d 50).status = Register ∨
          (updateSubmissionRegistration leaseDB f 1 w d 50).status = Update) →
        w = leasedSub.JudgeName) ∧
    (∀ d : Duration,
        (updateSubmissionRegistration leaseDB noFaults 1 leasedSub.JudgeName d 50).status
          = Update) :=
  ⟨by decide, by decide, by decide,
    claim_mutual_exclusion leaseDB 1 leasedSub 50 (by decide) (by decide) (by decide)⟩

/-- C7, Finished short-circuit. On a submission whose recorded holder is empty, a
Claim with any worker name and lease duration leaves the store unchanged, whatever
the store's faults (a later read returns the same row, field for field), and
returns Finished as soon as the row is read. -/
theorem claim_finished_no_write (db : DB) (id : Int) (sub : Submission)
    (hrow : takeSubmission db id = some sub) (hempty : sub.JudgeName = "")
    (f : Faults) (w : String) (d : Duration) (now : Time) :
    (updateSubmissionRegistration db f id w d now).db = db ∧
    takeSubmission (updateSubmissionRegistration db f id w d now).db id = some sub ∧
    (f.query = false →
      (updateSubmissionRegistration db f id w d now).status = Finished ∧
      (updateSubmissionRegistration db f id w d now).err = f.rollback) := by
  have hdb : (updateSubmissionRegistration db f id w d now).db = db := by
    by_cases hq : f.query = true
    · rw [claim_query_fault db f id w d now hq]
    · have hq' : f.query = false := by simpa using hq
      rw [claim_unfold db f id w d now sub hrow hq']
      simp [hempty]
  refine ⟨hdb, by rw [hdb]; exact hrow, ?_⟩
  intro hq
  rw [claim_unfold db f id w d now sub hrow hq]
  simp [hempty]

/-- Witness of C7: the sample submission without holder, claimed by `judge-b`. -/
theorem claim_finished_no_write_witness :
    takeSubmission leaseDB 2 = some finishedSub ∧ finishedSub.JudgeName = "" ∧
    (updateSubmissionRegistration leaseDB noFaults 2 "judge-b" 10 50).db = leaseDB ∧
    takeSubmission (updateSubmissionRegistration leaseDB noFaults 2 "judge-b" 10 50).db 2
      = some finishedSub ∧
    (noFaults.query = false →
      (updateSubmissionRegistration leaseDB noFaults 2 "judge-b" 10 50).status = Finished ∧
      (updateSubmissionRegistration leaseDB noFaults 2 "judge-b" 10 50).err
        = noFaults.rollback) :=
  ⟨by decide, by decide,
    claim_finished_no_write leaseDB 2 finishedSub (by decide) (by decide) noFaults "judge-b" 10 50⟩

/-- C8, Claim outcome and write. On a submission with a non-empty recorded holder
that is not a live lease of another worker, a Claim by `w` with duration `d` at
`now`, the store answering, writes holder `w` and expiry `now + d` (on that row
and nothing else), returns Update exactly when `w` already was the live holder
(same name, old expiry strictly after `now`) and Register in every other case, in
particular whenever the old lease has expired, whoever held it. OverWrite is
returned for no input at all. -/
theorem claim_outcome_and_write (db : DB) (id : Int) (sub : Submission) (f : Faults)
    (w : String) (d : Duration) (now : Time)
    (hrow : takeSubmission db id = some sub) (hne : sub.JudgeName ≠ "")
    (hfree : ¬ (now < sub.JudgePing ∧ sub.JudgeName ≠ w))
    (hq : f.query = false) (hu : f.update = false) (hc : f.commit = false) :
    (updateSubmissionRegistration db f id w d now).db
        = updateSubmissions db id (leased w (now + d)) ∧
    takeSubmission (updateSubmissionRegistration db f id w d now).db id
        = some { sub with JudgeName := w, JudgePing := now + d } ∧
    (updateSubmissionRegistration db f id w d now).err = none ∧
    ((updateSubmissionRegistration db f id w d now).status = Update ↔
        (sub.JudgeName = w ∧ now < sub.JudgePing)) ∧
    ((updateSubmissionRegistration db f id w d now).status = Register ↔
        ¬ (sub.JudgeName = w ∧ now < sub.JudgePing)) ∧
    (sub.JudgePing ≤ now → (updateSubmissionRegistration db f id w d now).status = Register) ∧
    (∀ (db' : DB) (f' : Faults) (id' : Int) (w' : String) (d' : Duration) (now' : Time),
        (updateSubmissionRegistration db' f' id' w' d' now').status ≠ OverWrite) := by
  have hres := claim_unfold db f id w d now sub hrow hq
  simp only [hne, if_false, hfree, hu, hc] at hres
  simp only [Bool.false_eq_true, if_false] at hres
  refine ⟨by rw [hres], ?_, by rw [hres], ?_, ?_, ?_, ?_⟩
  · rw [hres]
    show takeSubmission (updateSubmissions db id (leased w (now + d))) id = _
    rw [takeSubmission_leased, hrow]
    rfl
  · rw [hres]
    by_cases h : now < sub.JudgePing ∧ sub.JudgeName = w
    · simp [h]
    · simp only [h, if_false]
      constructor
      · intro hcontra
        cases hcontra
      · intro h'
        exact absurd ⟨h'.2, h'.1⟩ h
  · rw [hres]
    by_cases h : now < sub.JudgePing ∧ sub.JudgeName = w
    · simp [h]
    · simp only [h, if_false, true_iff]
      intro h'
      exact h ⟨h'.2, h'.1⟩
  · intro hexp
    rw [hres]
    have : ¬ (now < sub.JudgePing ∧ sub.JudgeName = w) := fun h => absurd h.1 (not_lt.mpr hexp)
    simp [this]
  · intro db' f' id' w' d' now'
    by_cases hq' : f'.query = true
    · rw [claim_query_fault db' f' id' w' d' now' hq']
      simp
    · have hq'' : f'.query = false := by simpa using hq'
      cases hrow' : takeSubmission db' id' with
      | none =>
        rw [claim_no_row db' f' id' w' d' now' hrow']
        simp
      | some sub' =>
        rw [claim_unfold db' f' id' w' d' now' sub' hrow' hq'']
        split_ifs <;> simp

/-- Witness of C8: worker `judge-b` takes over the sample lease of `judge-a` at
instant 100, the instant it runs out. -/
theorem claim_outcome_and_write_witness :
    takeSubmission leaseDB 1 = some leasedSub ∧ leasedSub.JudgeName ≠ "" ∧
    ¬ ((100 : Time) < leasedSub.JudgePing ∧ leasedSub.JudgeName ≠ "judge-b") ∧
    (updateSubmissionRegistration leaseDB noFaults 1 "judge-b" 30 100).status = Register ∧
    takeSubmission (updateSubmissionRegistration leaseDB noFaults 1 "judge-b" 30 100).db 1
        = some { leasedSub with JudgeName := "judge-b", JudgePing := 100 + 30 } :=
  have h := claim_outcome_and_write leaseDB 1 leasedSub noFaults "judge-b" 30 100
    (by decide) (by decide) (by decide) rfl rfl rfl
  ⟨by decide, by decide, by decide, h.2.2.2.2.2.1 (by decide), h.2.1⟩

/-! ## The holder's emptiness under Claim -/

theorem claim_holder_step (db : DB) (f : Faults) (id : Int) (w : String) (d : Duration)
    (now : Time) (sub : Submission) (hrow : takeSubmission db id = some sub) (hw : w ≠ "") :
    ∃ sub', takeSubmission (updateSubmissionRegistration db f id w d now).db id = some sub' ∧
      (sub'.JudgeName = "" ↔ sub.JudgeName = "") := by
  by_cases hq : f.query = true
  · rw [claim_query_fault db f id w d now hq]
    exact ⟨sub, hrow, Iff.rfl⟩
  · have hq' : f.query = false := by simpa using hq
    rw [claim_unfold db f id w d now sub hrow hq']
    have hwrite : sub.JudgeName ≠ "" → ∃ sub',
        takeSubmission (updateSubmissions db id (leased w (now + d))) id = some sub' ∧
          (sub'.JudgeName = "" ↔ sub.JudgeName = "") := by
      intro h1
      refine ⟨leased w (now + d) sub, ?_, ?_⟩
      · rw [takeSubmission_leased, hrow]
        rfl
      · simp [leased, hw, h1]
    split_ifs with h1
    · exact ⟨sub, hrow, Iff.rfl⟩
    · exact ⟨sub, hrow, Iff.rfl⟩
    · exact ⟨sub, hrow, Iff.rfl⟩
    · exact ⟨sub, hrow, Iff.rfl⟩
    · exact hwrite h1
    · exact hwrite h1

theorem claim_finished_iff (db : DB) (f : Faults) (id : Int) (w : String) (d : Duration)
    (now : Time) (sub : Submission) (hrow : takeSubmission db id = some sub) :
    ((updateSubmissionRegistration db f id w d now).status = Finished → sub.JudgeName = "") ∧
    (f.query = false →
      ((updateSubmissionRegistration db f id w d now).status = Finished ↔ sub.JudgeName = "")) := by
  have hread : f.query = false →
      ((updateSubmissionRegistration db f id w d now).status = Finished ↔
        sub.JudgeName = "") := by
    intro hq
    rw [claim_unfold db f id w d now sub hrow hq]
    by_cases h1 : sub.JudgeName = ""
    · simp [h1]
    · simp only [h1, if_false, iff_false]
      split_ifs <;> simp
  refine ⟨?_, hread⟩
  by_cases hq : f.query = true
  · rw [claim_query_fault db f id w d now hq]
    intro h
    cases h
  · have hq' : f.query = false := by simpa using hq
    exact (hread hq').mp

theorem claims_holder_run (id : Int) (calls : List ClaimCall) :
    ∀ (db : DB) (sub : Submission), takeSubmission db id = some sub →
      (∀ c ∈ calls, c.judgeName ≠ "") →
      (∃ sub', takeSubmission (afterClaims db id calls) id = some sub' ∧
        (sub'.JudgeName = "" ↔ sub.JudgeName = "")) ∧
      (∀ r ∈ runClaims db id calls, r.status = Finished → sub.JudgeName = "") ∧
      ((∀ c ∈ calls, c.faults.query = false) → sub.JudgeName = "" →
        ∀ r ∈ runClaims db id calls, r.status = Finished) := by
  induction calls with
  | nil =>
    intro db sub hrow _
    exact ⟨⟨sub, hrow, Iff.rfl⟩, by simp [runClaims], by simp [runClaims]⟩
  | cons c cs ih =>
    intro db sub hrow hnames
    have hc : c.judgeName ≠ "" := hnames c (List.mem_cons_self _ _)
    have hcs : ∀ c' ∈ cs, c'.judgeName ≠ "" := fun c' h => hnames c' (List.mem_cons_of_mem _ h)
    obtain ⟨sub1, hrow1, hiff1⟩ :=
      claim_holder_step db c.faults id c.judgeName c.expiration c.now sub hrow hc
    obtain ⟨hfin, hfin'⟩ :=
      claim_finished_iff db c.faults id c.judgeName c.expiration c.now sub hrow
    obtain ⟨⟨sub2, hrow2, hiff2⟩, hall, hall'⟩ := ih _ sub1 hrow1 hcs
    refine ⟨⟨sub2, ?_, hiff2.trans hiff1⟩, ?_, ?_⟩
    · simpa [afterClaims] using hrow2
    · intro r hr
      simp only [runClaims, List.mem_cons] at hr
      rcases hr with rfl | hr
      · exact hfin
      · intro h
        exact hiff1.mp (hall r hr h)
    · intro hreads hempty r hr
      simp only [runClaims, List.mem_cons] at hr
      rcases hr with rfl | hr
      · exact (hfin' (hreads c (List.mem_cons_self _ _))).mpr hempty
      · exact hall' (fun c' h => hreads c' (List.mem_cons_of_mem _ h)) (hiff1.mpr hempty) r hr

theorem claim_empty_name (db : DB) (id : Int) (sub : Submission) (d : Duration) (now : Time)
    (hrow : takeSubmission db id = some sub) (hne : sub.JudgeName ≠ "")
    (hexp : sub.JudgePing ≤ now) :
    (updateSubmissionRegistration db noFaults id "" d now).status = Register ∧
    takeSubmission (updateSubmissionRegistration db noFaults id "" d now).db id
      = some (leased "" (now + d) sub) ∧
    (∀ (f : Faults) (w : String) (d' : Duration) (now' : Time), f.query = false →
      (updateSubmissionRegistration
        (updateSubmissionRegistration db noFaults id "" d now).db f id w d' now').status
        = Finished) := by
  have hres := claim_unfold db noFaults id "" d now sub hrow rfl
  have hnl : ¬ now < sub.JudgePing := not_lt.mpr hexp
  have hu : ¬ (noFaults.update = true) := by decide
  have hc : ¬ (noFaults.commit = true) := by decide
  simp only [hne, if_false, hnl, false_and, hu, hc] at hres
  have hrow' : takeSubmission (updateSubmissions db id (leased "" (now + d))) id
      = some (leased "" (now + d) sub) := by
    rw [takeSubmission_leased, hrow]
    rfl
  rw [hres]
  refine ⟨rfl, hrow', ?_⟩
  intro f w d' now' hq
  exact ((claim_finished_iff _ f id w d' now' _ hrow').2 hq).mpr rfl

/-- C10, implicit invariant of Claim. (1) A Claim made with a non-empty worker
name keeps the row and keeps whether its holder is empty, whatever the store's
faults. (2) A Claim returns Finished only when the holder was empty, and exactly
when it was once the row is read. (3) Along every sequence of Claims with non-empty
worker names the emptiness of the holder never changes, no call returns Finished
from a non-empty holder, and from an empty holder every call that reads the row
returns Finished. (4) With the empty worker name the invariant fails: on the sample
submission, whose lease has run out at instant 100, a Claim with worker name ""
returns Register and writes an empty holder, after which every Claim that reads the
row returns Finished. -/
theorem claim_holder_emptiness_invariant :
    (∀ (db : DB) (f : Faults) (id : Int) (w : String) (d : Duration) (now : Time)
        (sub : Submission), takeSubmission db id = some sub → w ≠ "" →
        ∃ sub', takeSubmission (updateSubmissionRegistration db f id w d now).db id = some sub' ∧
          (sub'.JudgeName = "" ↔ sub.JudgeName = "")) ∧
    (∀ (db : DB) (f : Faults) (id : Int) (w : String) (d : Duration) (now : Time)
        (sub : Submission), takeSubmission db id = some sub →
        ((updateSubmissionRegistration db f id w d now).status = Finished →
          sub.JudgeName = "") ∧
        (f.query = false →
          ((updateSubmissionRegistration db f id w d now).status = Finished ↔
            sub.JudgeName = ""))) ∧
    (∀ (db : DB) (id : Int) (calls : List ClaimCall) (sub : Submission),
        takeSubmission db id = some sub → (∀ c ∈ calls, c.judgeName ≠ "") →
        (∃ sub', takeSubmission (afterClaims db id calls) id = some sub' ∧
          (sub'.JudgeName = "" ↔ sub.JudgeName = "")) ∧
        (∀ r ∈ runClaims db id calls, r.status = Finished → sub.JudgeName = "") ∧
        ((∀ c ∈ calls, c.faults.query = false) → sub.JudgeName = "" →
          ∀ r ∈ runClaims db id calls, r.status = Finished)) ∧
    (takeSubmission leaseDB 1 = some leasedSub ∧ leasedSub.JudgeName ≠ "" ∧
      leasedSub.JudgePing ≤ 100 ∧
      (updateSubmissionRegistration leaseDB noFaults 1 "" 30 100).status = Register ∧
      takeSubmission (updateSubmissionRegistration leaseDB noFaults 1 "" 30 100).db 1
        = some { leasedSub with JudgeName := "", JudgePing := 130 } ∧
      (∀ (f : Faults) (w : String) (d : Duration) (now : Time), f.query = false →
        (updateSubmissionRegistration
          (updateSubmissionRegistration leaseDB noFaults 1 "" 30 100).db f 1 w d now).status
          = Finished)) := by
  refine ⟨?_, ?_, ?_, ?_⟩
  · intro db f id w d now sub hrow hw
    exact claim_holder_step db f id w d now sub hrow hw
  · intro db f id w d now sub hrow
    exact claim_finished_iff db f id w d now sub hrow
  · intro db id calls sub hrow hnames
    exact claims_holder_run id calls db sub hrow hnames
  · have h := claim_empty_name leaseDB 1 leasedSub 30 100 (by decide) (by decide) (by decide)
    exact ⟨by decide, by decide, by decide, h.1, h.2.1, h.2.2⟩

/-- Witness of C10: a Claim by `judge-b` on the sample submission leased to
`judge-a` keeps the holder non-empty. -/
theorem claim_holder_emptiness_invariant_witness :
    takeSubmission leaseDB 1 = some leasedSub ∧ "judge-b" ≠ "" ∧
    ∃ sub', takeSubmission
        (updateSubmissionRegistration leaseDB noFaults 1 "judge-b" 30 100).db 1 = some sub' ∧
      (sub'.JudgeName = "" ↔ leasedSub.JudgeName = "") :=
  ⟨by decide, by decide,
    claim_holder_emptiness_invariant.1 leaseDB noFaults 1 "judge-b" 30 100 leasedSub
      (by decide) (by decide)⟩

/-! ## Lease expiry recovery -/

theorem claim_success_inv (db : DB) (f : Faults) (id : Int) (w : String) (d : Duration)
    (now : Time)
    (h : (updateSubmissionRegistration db f id w d now).status = Register ∨
      (updateSubmissionRegistration db f id w d now).status = Update) :
    ∃ sub, takeSubmission db id = some sub ∧ sub.JudgeName ≠ "" ∧
      (updateSubmissionRegistration db f id w d now).db
        = updateSubmissions db id (leased w (now + d)) ∧
      takeSubmission (updateSubmissionRegistration db f id w d now).db id
        = some (leased w (now + d) sub) := by
  by_cases hq : f.query = true
  · rw [claim_query_fault db f id w d now hq] at h
    simp at h
  · have hq' : f.query = false := by simpa using hq
    cases hrow : takeSubmission db id with
    | none =>
      rw [claim_no_row db f id w d now hrow] at h
      simp at h
    | some sub =>
      have hres := claim_unfold db f id w d now sub hrow hq'
      rw [hres] at h ⊢
      have hrow' : takeSubmission (updateSubmissions db id (leased w (now + d))) id
          = some (leased w (now + d) sub) := by
        rw [takeSubmission_leased, hrow]
        rfl
      split_ifs at h ⊢ with h1
      · simp at h
      · simp at h
      · simp at h
      · simp at h
      · exact ⟨sub, rfl, h1, rfl, hrow'⟩
      · exact ⟨sub, rfl, h1, rfl, hrow'⟩

/-- C5 as stated fails for the empty worker name. First run: the worker named ""
claims the sample submission at instant 100 (its lease has run out) for 30 and
gets Register; the Claim of `judge-b` at instant 200, after that lease has run
out, returns Finished, not Register. Second run: `judge-a` renews at instant 50 for
30; the worker named "" claims at instant 100 and gets Register until 130; the
Claim of `judge-a` at instant 110 returns Finished, not Occupied. -/
theorem lease_recovery_empty_name_counterexample :
    ((updateSubmissionRegistration leaseDB noFaults 1 "" 30 100).status = Register ∧
      "judge-b" ≠ "" ∧ (100 : Time) + 30 < 200 ∧
      (updateSubmissionRegistration
        (updateSubmissionRegistration leaseDB noFaults 1 "" 30 100).db
        noFaults 1 "judge-b" 30 200).status = Finished) ∧
    ((updateSubmissionRegistration leaseDB noFaults 1 "judge-a" 30 50).status = Update ∧
      "" ≠ "judge-a" ∧ (50 : Time) + 30 < 100 ∧
      (updateSubmissionRegistration
        (updateSubmissionRegistration leaseDB noFaults 1 "judge-a" 30 50).db
        noFaults 1 "" 30 100).status = Register ∧
      (100 : Time) ≤ 110 ∧ (110 : Time) < 100 + 30 ∧
      (updateSubmissionRegistration
        (updateSubmissionRegistration
          (updateSubmissionRegistration leaseDB noFaults 1 "judge-a" 30 50).db
          noFaults 1 "" 30 100).db
        noFaults 1 "judge-a" 30 110).status = Finished) := by
  decide

/-- C5 amended, lease expiry recovery for non-empty worker names. Worker `A`
claimed successfully (Register or Update) at `t0` with duration `d` and the store
was not touched since. A Claim by a different worker `B` at any `t1 > t0 + d`, the
store answering, returns Register and makes `B` the holder with expiry `t1 + d'`;
a Claim by `A` after that at any `t2 < t1 + d'` (so at any `t2` with
`t1 ≤ t2 < t1 + d'`) leaves the store unchanged whatever the store's faults, and
returns Occupied as soon as the row is read. Both names are non-empty. -/
theorem lease_expiry_recovery (db : DB) (id : Int) (A B : String) (d d' d2 : Duration)
    (t0 t1 t2 : Time) (f0 f1 f2 : Faults)
    (hA : A ≠ "") (hB : B ≠ "") (hAB : B ≠ A)
    (hclaimed : (updateSubmissionRegistration db f0 id A d t0).status = Register ∨
      (updateSubmissionRegistration db f0 id A d t0).status = Update)
    (ht1 : t0 + d < t1) (hf1 : f1.claimOk = true) (ht2 : t2 < t1 + d') :
    (updateSubmissionRegistration
      (updateSubmissionRegistration db f0 id A d t0).db f1 id B d' t1).status = Register ∧
    (∃ sub1, takeSubmission (updateSubmissionRegistration
        (updateSubmissionRegistration db f0 id A d t0).db f1 id B d' t1).db id = some sub1 ∧
      sub1.JudgeName = B ∧ sub1.JudgePing = t1 + d') ∧
    (updateSubmissionRegistration
      (updateSubmissionRegistration
        (updateSubmissionRegistration db f0 id A d t0).db f1 id B d' t1).db
      f2 id A d2 t2).db
      = (updateSubmissionRegistration
          (updateSubmissionRegistration db f0 id A d t0).db f1 id B d' t1).db ∧
    (f2.query = false →
      (updateSubmissionRegistration
        (updateSubmissionRegistration
          (updateSubmissionRegistration db f0 id A d t0).db f1 id B d' t1).db
        f2 id A d2 t2).status = Occupied) := by
  obtain ⟨sub0, _, _, _, hrow0⟩ := claim_success_inv db f0 id A d t0 hclaimed
  simp only [Faults.claimOk, Bool.and_eq_true, Bool.not_eq_true'] at hf1
  obtain ⟨⟨hq1, hu1⟩, hc1⟩ := hf1
  have hfree : ¬ (t1 < (leased A (t0 + d) sub0).JudgePing ∧
      (leased A (t0 + d) sub0).JudgeName ≠ B) := by
    intro h
    have h1 : t1 < t0 + d := h.1
    exact absurd h1 (not_lt.mpr (le_of_lt ht1))
  have hstep := claim_unfold _ f1 id B d' t1 _ hrow0 hq1
  have hname0 : ¬ ((leased A (t0 + d) sub0).JudgeName = "") := hA
  have hnot : ¬ (t1 < (leased A (t0 + d) sub0).JudgePing ∧
      (leased A (t0 + d) sub0).JudgeName = B) := by
    intro h
    have h1 : t1 < t0 + d := h.1
    exact absurd h1 (not_lt.mpr (le_of_lt ht1))
  simp only [hname0, if_false, hfree, hu1, hc1, Bool.false_eq_true, hnot] at hstep
  have hrow1 : takeSubmission (updateSubmissions (updateSubmissionRegistration db f0 id A d t0).db
      id (leased B (t1 + d'))) id = some (leased B (t1 + d') (leased A (t0 + d) sub0)) := by
    rw [takeSubmission_leased, hrow0]
    rfl
  rw [hstep]
  have hocc := claim_other_worker _ id _ t2 hrow1 hB ht2 f2 A d2 hAB.symm
  exact ⟨rfl, ⟨_, hrow1, rfl, rfl⟩, hocc.2.2.2, hocc.1⟩

/-- Witness of C5 amended: `judge-a` renews the sample lease at instant 50 for 30,
`judge-b` claims at instant 100 for 30, `judge-a` comes back at instant 110. -/
theorem lease_expiry_recovery_witness :
    "judge-a" ≠ "" ∧ "judge-b" ≠ "" ∧ "judge-b" ≠ "judge-a" ∧
    (updateSubmissionRegistration leaseDB noFaults 1 "judge-a" 30 50).status = Update ∧
    (50 : Time) + 30 < 100 ∧ noFaults.claimOk = true ∧ (110 : Time) < 100 + 30 ∧
    (updateSubmissionRegistration
      (updateSubmissionRegistration leaseDB noFaults 1 "judge-a" 30 50).db
      noFaults 1 "judge-b" 30 100).status = Register ∧
    (noFaults.query = false →
      (updateSubmissionRegistration
        (updateSubmissionRegistration
          (updateSubmissionRegistration leaseDB noFaults 1 "judge-a" 30 50).db
          noFaults 1 "judge-b" 30 100).db
        noFaults 1 "judge-a" 30 110).status = Occupied) :=
  have h := lease_expiry_recovery leaseDB 1 "judge-a" "judge-b" 30 30 30 50 100 110
    noFaults noFaults noFaults (by decide) (by decide) (by decide) (Or.inr (by decide))
    (by decide) (by decide) (by decide)
  ⟨by decide, by decide, by decide, by decide, by decide, by decide, by decide, h.1, h.2.2.2⟩

/-! ## Renewal -/

theorem renew_step (db : DB) (f : Faults) (id : Int) (w : String) (d : Duration) (now : Time)
    (hlive : liveLease db id w now = true) (hf : f.claimOk = true) :
    (updateSubmissionRegistration db f id w d now).status = Update ∧
    ∃ e, expiryOf db id = some e ∧ now < e ∧
      expiryOf (updateSubmissionRegistration db f id w d now).db id = some (now + d) := by
  simp only [Faults.claimOk, Bool.and_eq_true, Bool.not_eq_true'] at hf
  obtain ⟨⟨hq, hu⟩, hc⟩ := hf
  cases hrow : takeSubmission db id with
  | none => simp [liveLease, hrow] at hlive
  | some sub =>
    simp only [liveLease, hrow, Bool.and_eq_true, decide_eq_true_eq] at hlive
    obtain ⟨⟨hname, hw⟩, hlt⟩ := hlive
    have hres := claim_unfold db f id w d now sub hrow hq
    have h1 : ¬ sub.JudgeName = "" := by rw [hname]; exact hw
    have h2 : ¬ (now < sub.JudgePing ∧ sub.JudgeName ≠ w) := fun h => h.2 hname
    have h3 : now < sub.JudgePing ∧ sub.JudgeName = w := ⟨hlt, hname⟩
    have hu' : ¬ f.update = true := by simp [hu]
    have hc' : ¬ f.commit = true := by simp [hc]
    rw [if_neg h1, if_neg h2, if_neg hu', if_neg hc', if_pos h3] at hres
    rw [hres]
    refine ⟨rfl, sub.JudgePing, by simp [expiryOf, hrow], hlt, ?_⟩
    show expiryOf (updateSubmissions db id (leased w (now + d))) id = _
    simp only [expiryOf, takeSubmission_leased, hrow]
    rfl

theorem renewals_update (id : Int) (w : String) (calls : List ClaimCall) :
    ∀ db : DB, renewing id w db calls = true →
      ∀ s ∈ claimSteps db id calls, s.2.2.status = Update ∧
        ∃ e e', s.1 = some e ∧ expiryOf s.2.2.db id = some e' ∧ s.2.1.now < e ∧
          e' = s.2.1.now + s.2.1.expiration := by
  induction calls with
  | nil => intro db _ s hs; simp [claimSteps] at hs
  | cons c cs ih =>
    intro db h s hs
    simp only [renewing, Bool.and_eq_true, decide_eq_true_eq] at h
    obtain ⟨⟨⟨hname, hlive⟩, hf⟩, hrest⟩ := h
    simp only [claimSteps, List.mem_cons] at hs
    rcases hs with rfl | hs
    · rw [hname]
      obtain ⟨hst, e, he, hlt, he'⟩ := renew_step db c.faults id w c.expiration c.now hlive hf
      exact ⟨hst, e, _, he, he', hlt, rfl⟩
    · exact ih _ hrest s hs

theorem renewals_monotone (id : Int) (w : String) (d : Duration) (calls : List ClaimCall) :
    ∀ (db : DB) (e0 : Time), renewing id w db calls = true → expiryOf db id = some e0 →
      (∀ c ∈ calls, c.expiration = d) → (calls.map ClaimCall.now).Pairwise (fun a b => a ≤ b) →
      (∀ c ∈ calls, e0 ≤ c.now + d) →
      ∀ s ∈ claimSteps db id calls,
        ∃ e e', s.1 = some e ∧ expiryOf s.2.2.db id = some e' ∧ e ≤ e' := by
  induction calls with
  | nil => intro db e0 _ _ _ _ _ s hs; simp [claimSteps] at hs
  | cons c cs ih =>
    intro db e0 h he0 hd hsorted hfirst s hs
    simp only [renewing, Bool.and_eq_true, decide_eq_true_eq] at h
    obtain ⟨⟨⟨hname, hlive⟩, hf⟩, hrest⟩ := h
    have hcd : c.expiration = d := hd c (List.mem_cons_self _ _)
    rw [hname] at hrest
    obtain ⟨_, e, he, _, he'⟩ := renew_step db c.faults id w c.expiration c.now hlive hf
    simp only [List.map_cons, List.pairwise_cons, List.mem_map, forall_exists_index,
      and_imp, forall_apply_eq_imp_iff₂] at hsorted
    simp only [claimSteps, List.mem_cons] at hs
    rcases hs with rfl | hs
    · rw [hname]
      refine ⟨e0, _, he0, he', ?_⟩
      have := hfirst c (List.mem_cons_self _ _)
      rw [hcd]
      exact this
    · rw [hname] at hs
      refine ih _ (c.now + c.expiration) hrest he'
        (fun c' h' => hd c' (List.mem_cons_of_mem _ h')) hsorted.2 ?_ s hs
      intro c' h'
      have := hsorted.1 c' h'
      rw [hcd]
      exact add_le_add_right this d

/-- C6 as stated fails when a renewal passes a shorter duration: `judge-a` holds
the sample lease until instant 100 and renews at instant 50 with duration 10; the
call returns Update and the expiry moves back from 100 to 60. -/
theorem renewal_shorter_duration_counterexample :
    liveLease leaseDB 1 "judge-a" 50 = true ∧
    (updateSubmissionRegistration leaseDB noFaults 1 "judge-a" 10 50).status = Update ∧
    expiryOf leaseDB 1 = some 100 ∧
    expiryOf (updateSubmissionRegistration leaseDB noFaults 1 "judge-a" 10 50).db 1 = some 60 ∧
    (60 : Time) < 100 := by
  decide

/-- C6 amended, renewal. Along every sequence of Claim calls by `w`, each made
while `w` holds a live lease and the store answers, every call returns Update and
sets the expiry to its own clock reading plus its own duration, so the expiry does
not move back at a call exactly when the duration passed is at least what was left
of the lease. When moreover every call passes the same duration `d`, the clock
readings are non-decreasing and the lease found at the start runs out no later
than `d` after the first call, the expiry after each call is at or after the expiry
before it. -/
theorem renewal_update_and_expiry (id : Int) (w : String) (calls : List ClaimCall) (db : DB)
    (h : renewing id w db calls = true) :
    (∀ s ∈ claimSteps db id calls, s.2.2.status = Update ∧
      ∃ e e', s.1 = some e ∧ expiryOf s.2.2.db id = some e' ∧ s.2.1.now < e ∧
        e' = s.2.1.now + s.2.1.expiration ∧ (e ≤ e' ↔ e - s.2.1.now ≤ s.2.1.expiration)) ∧
    (∀ (d : Duration) (e0 : Time), expiryOf db id = some e0 →
      (∀ c ∈ calls, c.expiration = d) →
      (calls.map ClaimCall.now).Pairwise (fun a b => a ≤ b) →
      (∀ c ∈ calls, e0 ≤ c.now + d) →
      ∀ s ∈ claimSteps db id calls,
        ∃ e e', s.1 = some e ∧ expiryOf s.2.2.db id = some e' ∧ e ≤ e') := by
  constructor
  · intro s hs
    obtain ⟨hst, e, e', he, he', hlt, heq⟩ := renewals_update id w calls db h s hs
    refine ⟨hst, e, e', he, he', hlt, heq, ?_⟩
    rw [heq]
    constructor <;> intro h' <;> linarith
  · intro d e0 he0 hd hsorted hfirst
    exact renewals_monotone id w d calls db e0 h he0 hd hsorted hfirst

/-- Witness of C6 amended: two renewals of the sample lease by `judge-a`. -/
theorem renewal_update_and_expiry_witness :
    renewing 1 "judge-a" leaseDB sampleRenewals = true ∧
    ∀ s ∈ claimSteps leaseDB 1 sampleRenewals, s.2.2.status = Update ∧
      ∃ e e', s.1 = some e ∧ expiryOf s.2.2.db 1 = some e' ∧ s.2.1.now < e ∧
        e' = s.2.1.now + s.2.1.expiration ∧ (e ≤ e' ↔ e - s.2.1.now ≤ s.2.1.expiration) :=
  ⟨by decide, (renewal_update_and_expiry 1 "judge-a" sampleRenewals leaseDB (by decide)).1⟩

/-! ## Entering the wait for a judge -/

theorem toWaitingJudge_unfold (db : DB) (f : Faults) (id : Int) (priority : Int)
    (after : Duration) (now : Time) (sub : Submission)
    (hrow : takeSubmission db id = some sub) (hok : waitingOk db f = true) :
    toWaitingJudge db f id priority after now =
      ({ updateSubmissions db id (waiting sub.Status) with
          tasks := db.tasks ++ [{ ID := (db.taskSeq : Int) + 1, Submission := id,
                                  Priority := priority, Available := now + after }],
          taskSeq := db.taskSeq + 1 }, none) := by
  simp only [waitingOk, Bool.and_eq_true, Bool.not_eq_true'] at hok
  obtain ⟨⟨⟨hq, hu⟩, hi⟩, hfree⟩ := hok
  have hfree' : ¬ ∃ x ∈ db.tasks, x.ID = (db.taskSeq : Int) + 1 := by simpa using hfree
  simp only [toWaitingJudge, fetchSubmission, hq, hrow, hu, pushTask, hi, createTask,
    createdID, createdRow, updateSubmissions]
  simp [waiting, hfree']

theorem toWaitingJudge_fails (db : DB) (f : Faults) (id : Int) (priority : Int)
    (after : Duration) (now : Time) (hok : waitingOk db f = false) :
    (toWaitingJudge db f id priority after now).2 ≠ none := by
  simp only [toWaitingJudge, fetchSubmission, pushTask, createTask, createdID, createdRow,
    updateSubmissions]
  by_cases hq : f.query = true
  · simp [hq]
  · cases hrow : takeSubmission db id with
    | none => simp [hq]
    | some sub =>
      by_cases hu : f.update = true
      · simp [hq, hu]
      · by_cases hi : f.insert = true
        · simp [hq, hu, hi]
        · have hq' : f.query = false := by simpa using hq
          have hu' : f.update = false := by simpa using hu
          have hi' : f.insert = false := by simpa using hi
          simp only [waitingOk, hq', hu', hi', Bool.not_false, Bool.true_and,
            Bool.not_eq_false'] at hok
          simp [hq', hu', hi', hok]

theorem takeSubmission_waiting (db : DB) (id : Int) (status : String) :
    takeSubmission (updateSubmissions db id (waiting status)) id
      = (takeSubmission db id).map (waiting status) :=
  takeSubmission_update db id _ (fun _ => rfl)

theorem claim_after_expiry (db : DB) (f : Faults) (id : Int) (w : String) (d : Duration)
    (now : Time) (sub : Submission) (hrow : takeSubmission db id = some sub)
    (hne : sub.JudgeName ≠ "") (hexp : sub.JudgePing ≤ now) (hf : f.claimOk = true) :
    (updateSubmissionRegistration db f id w d now).status = Register := by
  simp only [Faults.claimOk, Bool.and_eq_true, Bool.not_eq_true'] at hf
  obtain ⟨⟨hq, hu⟩, hc⟩ := hf
  have hnl : ¬ now < sub.JudgePing := not_lt.mpr hexp
  have hu' : ¬ f.update = true := by simp [hu]
  have hc' : ¬ f.commit = true := by simp [hc]
  rw [claim_unfold db f id w d now sub hrow hq, if_neg hne, if_neg (fun h => hnl h.1),
    if_neg hu', if_neg hc', if_neg (fun h => hnl h.1)]

/-- C9, postcondition of `toWaitingJudge`. The clock reads an instant after the
zero time of `time.Time` (year 1), as the clock of every running system does. On
an existing submission the call succeeds when the store answers its three
statements and the next task key is free. A successful call at `now` leaves the
submission with previous status equal to its status before the call, holder
`#dummy` (a non-empty name) and expiry equal to the zero time, an instant before
`now`; it adds exactly one task, at the end of the queue, with the submission's
id, the given priority and availability `now + after`. The next Claim, by any
worker name and with any duration, made at `now` or later with the store
answering, returns Register. -/
theorem toWaitingJudge_postcondition (db : DB) (f : Faults) (id : Int) (priority : Int)
    (after : Duration) (now : Time) (sub : Submission)
    (hrow : takeSubmission db id = some sub) (hclock : zeroTime < now) :
    (waitingOk db f = true → (toWaitingJudge db f id priority after now).2 = none) ∧
    ((toWaitingJudge db f id priority after now).2 = none →
      takeSubmission (toWaitingJudge db f id priority after now).1 id
        = some { sub with PrevStatus := sub.Status, JudgeName := "#dummy",
                          JudgePing := zeroTime } ∧
      ("#dummy" : String) ≠ "" ∧
      (∃ e, expiryOf (toWaitingJudge db f id priority after now).1 id = some e ∧ e < now) ∧
      (toWaitingJudge db f id priority after now).1.tasks
        = db.tasks ++ [{ ID := (db.taskSeq : Int) + 1, Submission := id,
                         Priority := priority, Available := now + after }] ∧
      (∀ (f' : Faults) (w : String) (d : Duration) (now' : Time),
        now ≤ now' → f'.claimOk = true →
        (updateSubmissionRegistration (toWaitingJudge db f id priority after now).1
          f' id w d now').status = Register)) := by
  have hsuff : waitingOk db f = true →
      (toWaitingJudge db f id priority after now).2 = none := by
    intro h
    rw [toWaitingJudge_unfold db f id priority after now sub hrow h]
  refine ⟨hsuff, ?_⟩
  intro hsucc
  have hok : waitingOk db f = true := by
    by_contra hne
    have hfalse : waitingOk db f = false := by simpa using hne
    exact toWaitingJudge_fails db f id priority after now hfalse hsucc
  rw [toWaitingJudge_unfold db f id priority after now sub hrow hok]
  have hrow' : takeSubmission
      ({ updateSubmissions db id (waiting sub.Status) with
          tasks := db.tasks ++ [{ ID := (db.taskSeq : Int) + 1, Submission := id,
                                  Priority := priority, Available := now + after }],
          taskSeq := db.taskSeq + 1 } : DB) id = some (waiting sub.Status sub) := by
    have := takeSubmission_waiting db id sub.Status
    rw [hrow] at this
    exact this
  refine ⟨hrow', by decide, ?_, rfl, ?_⟩
  · exact ⟨zeroTime, by simp only [expiryOf, hrow']; rfl, hclock⟩
  · intro f' w d now' hnow' hf'
    have hname : (waiting sub.Status sub).JudgeName ≠ "" := by
      show ("#dummy" : String) ≠ ""
      decide
    have hexp : (waiting sub.Status sub).JudgePing ≤ now' := by
      show zeroTime ≤ now'
      exact le_trans (le_of_lt hclock) hnow'
    exact claim_after_expiry _ f' id w d now' _ hrow' hname hexp hf'

/-- Witness of C9: the sample submission 2 enters the wait at 2020-01-01 00:00:00
UTC with priority 5 and no delay, and `judge-b` claims it at the same instant. -/
theorem toWaitingJudge_postcondition_witness :
    takeSubmission leaseDB 2 = some finishedSub ∧
    zeroTime < 1577836800000000000 ∧ waitingOk leaseDB noFaults = true ∧
    (toWaitingJudge leaseDB noFaults 2 5 0 1577836800000000000).2 = none ∧
    noFaults.claimOk = true ∧
    expiryOf (toWaitingJudge leaseDB noFaults 2 5 0 1577836800000000000).1 2
      = some zeroTime ∧
    (toWaitingJudge leaseDB noFaults 2 5 0 1577836800000000000).1.tasks
      = [{ ID := 1, Submission := 2, Priority := 5, Available := 1577836800000000000 }] ∧
    (updateSubmissionRegistration (toWaitingJudge leaseDB noFaults 2 5 0 1577836800000000000).1
      noFaults 2 "judge-b" 30 1577836800000000000).status = Register :=
  have h := toWaitingJudge_postcondition leaseDB noFaults 2 5 0 1577836800000000000
    finishedSub (by decide) (by decide)
  have hs : (toWaitingJudge leaseDB noFaults 2 5 0 1577836800000000000).2 = none :=
    h.1 (by decide)
  ⟨by decide, by decide, by decide, hs, by decide, by decide, by decide,
    (h.2 hs).2.2.2.2 noFaults "judge-b" 30 1577836800000000000 (le_refl _) (by decide)⟩

/-! ## The queue -/

theorem popTask_valid_inv (db : DB) (f : Faults) (now : Time)
    (h : (popTask db f now).valid = true) :
    ∃ t, firstTask (eligible db now) = some t ∧
      (db.tasks.filter (fun x => decide (x.ID = t.ID))).length = 1 ∧
      popTask db f now =
        { task := t, err := none,
          db := { db with tasks := db.tasks.filter (fun x => decide (x.ID ≠ t.ID)) } } := by
  simp only [PopResult.valid, Bool.and_eq_true, decide_eq_true_eq] at h
  obtain ⟨herr, htask⟩ := h
  by_cases hq : f.query = true
  · simp [popTask, hq] at herr
  · cases hfirst : firstTask (eligible db now) with
    | none => simp [popTask, hq, hfirst] at htask
    | some t =>
      by_cases hd : f.delete = true
      · simp [popTask, hq, hfirst, hd] at htask
      · by_cases hrows : (db.tasks.filter (fun x => decide (x.ID = t.ID))).length = 1
        · by_cases hc : f.commit = true
          · simp [popTask, hq, hfirst, hd, hrows, hc] at herr
          · exact ⟨t, rfl, hrows, by simp [popTask, hq, hfirst, hd, hrows, hc]⟩
        · simp [popTask, hq, hfirst, hd, hrows] at htask

theorem popTask_cases (db : DB) (f : Faults) (now : Time) :
    ((popTask db f now).db = db ∧
      ((popTask db f now).task = {} ∨ (popTask db f now).task = emptyTask)) ∨
    ∃ t : Task, firstTask (eligible db now) = some t ∧ (popTask db f now).task = t ∧
      (popTask db f now).db
        = { db with tasks := db.tasks.filter (fun x => decide (x.ID ≠ t.ID)) } := by
  by_cases hq : f.query = true
  · left
    simp [popTask, hq]
  · cases hfirst : firstTask (eligible db now) with
    | none =>
      left
      simp [popTask, hq, hfirst]
    | some t =>
      by_cases hd : f.delete = true
      · left
        simp [popTask, hq, hfirst, hd]
      · by_cases hrows : (db.tasks.filter (fun x => decide (x.ID = t.ID))).length = 1
        · by_cases hc : f.commit = true
          · left
            simp [popTask, hq, hfirst, hd, hrows, hc]
          · right
            exact ⟨t, rfl, by simp [popTask, hq, hfirst, hd, hrows, hc],
              by simp [popTask, hq, hfirst, hd, hrows, hc]⟩
        · left
          simp [popTask, hq, hfirst, hd, hrows]

theorem popTask_tasks_sublist (db : DB) (f : Faults) (now : Time) :
    (popTask db f now).db.tasks.Sublist db.tasks := by
  rcases popTask_cases db f now with ⟨h, _⟩ | ⟨t, _, _, h⟩
  · rw [h]
  · rw [h]
    exact List.filter_sublist _

theorem popTask_frame (db : DB) (f : Faults) (now : Time) :
    (popTask db f now).db.submissions = db.submissions ∧
    (popTask db f now).db.problems = db.problems ∧
    (popTask db f now).db.users = db.users := by
  rcases popTask_cases db f now with ⟨h, _⟩ | ⟨t, _, _, h⟩ <;> rw [h] <;> exact ⟨rfl, rfl, rfl⟩

theorem filter_ID_split (l : List Task) (t : Task) (hmem : t ∈ l)
    (hone : (l.filter (fun x => decide (x.ID = t.ID))).length = 1) :
    ∃ l1 l2, l = l1 ++ t :: l2 ∧ l.filter (fun x => decide (x.ID ≠ t.ID)) = l1 ++ l2 ∧
      ∀ x ∈ l1 ++ l2, x.ID ≠ t.ID := by
  obtain ⟨l1, l2, hl⟩ := List.append_of_mem hmem
  subst hl
  simp only [List.filter_append, List.filter_cons, decide_True, if_true, List.length_append,
    List.length_cons] at hone
  have h1 : (l1.filter (fun x => decide (x.ID = t.ID))).length = 0 := by omega
  have h2 : (l2.filter (fun x => decide (x.ID = t.ID))).length = 0 := by omega
  have h1' : ∀ x ∈ l1, x.ID ≠ t.ID := by
    have := List.length_eq_zero.mp h1
    simpa [List.filter_eq_nil_iff] using this
  have h2' : ∀ x ∈ l2, x.ID ≠ t.ID := by
    have := List.length_eq_zero.mp h2
    simpa [List.filter_eq_nil_iff] using this
  refine ⟨l1, l2, rfl, ?_, ?_⟩
  · simp only [List.filter_append, List.filter_cons, ne_eq, not_true_eq_false, decide_False,
      Bool.false_eq_true, if_false]
    congr 1
    · exact List.filter_eq_self.mpr (fun x hx => by simpa using h1' x hx)
    · exact List.filter_eq_self.mpr (fun x hx => by simpa using h2' x hx)
  · intro x hx
    rcases List.mem_append.mp hx with hx | hx
    · exact h1' x hx
    · exact h2' x hx

theorem popTask_valid_removes (db : DB) (f : Faults) (now : Time)
    (h : (popTask db f now).valid = true) :
    (popTask db f now).task ∈ eligible db now ∧
    (∀ x ∈ eligible db now, x.Priority ≤ (popTask db f now).task.Priority) ∧
    ∃ l1 l2, db.tasks = l1 ++ (popTask db f now).task :: l2 ∧
      (popTask db f now).db.tasks = l1 ++ l2 ∧
      ∀ x ∈ l1 ++ l2, x.ID ≠ (popTask db f now).task.ID := by
  obtain ⟨t, hfirst, hone, hres⟩ := popTask_valid_inv db f now h
  have hmem : t ∈ eligible db now := firstTask_mem hfirst
  have hmem' : t ∈ db.tasks := (List.mem_filter.mp hmem).1
  rw [hres]
  exact ⟨hmem, firstTask_priority hfirst, filter_ID_split db.tasks t hmem' hone⟩

theorem popTask_first (db : DB) (now : Time) (t : Task)
    (hfirst : firstTask (eligible db now) = some t)
    (hone : (db.tasks.filter (fun x => decide (x.ID = t.ID))).length = 1) :
    popTask db noFaults now =
      { task := t, err := none,
        db := { db with tasks := db.tasks.filter (fun x => decide (x.ID ≠ t.ID)) } } := by
  simp [popTask, noFaults, hfirst, hone]

theorem three_priorities (a b c : Task) (db : DB) (n1 n2 n3 : Time)
    (hq : db.tasks = [a, b, c])
    (ha : a.Priority = 5) (hb : b.Priority = 1) (hc : c.Priority = 9)
    (hab : a.ID ≠ b.ID) (hac : a.ID ≠ c.ID) (hbc : b.ID ≠ c.ID)
    (ha1 : a.Available ≤ n1) (hb1 : b.Available ≤ n1) (hc1 : c.Available ≤ n1)
    (h12 : n1 ≤ n2) (h23 : n2 ≤ n3) :
    (runPops db [{ now := n1 }, { now := n2 }, { now := n3 }]).map
        (fun r => (r.task, r.err, r.db.tasks))
      = [(c, none, [a, b]), (a, none, [b]), (b, none, [])] := by
  have ha2 : a.Available ≤ n2 := le_trans ha1 h12
  have hb2 : b.Available ≤ n2 := le_trans hb1 h12
  have hb3 : b.Available ≤ n3 := le_trans hb2 h23
  have hba : b.ID ≠ a.ID := fun h => hab h.symm
  have hca : c.ID ≠ a.ID := fun h => hac h.symm
  have hcb : c.ID ≠ b.ID := fun h => hbc h.symm
  have p1 : popTask db noFaults n1 =
      { task := c, err := none, db := { db with tasks := [a, b] } } := by
    rw [popTask_first db n1 c]
    · simp [hq, hac, hbc]
    · simp [eligible, hq, ha1, hb1, hc1, firstTask, before, ha, hb, hc]
    · simp [hq, hac, hbc]
  have p2 : popTask { db with tasks := [a, b] } noFaults n2 =
      { task := a, err := none, db := { db with tasks := [b] } } := by
    rw [popTask_first _ n2 a]
    · simp [hba]
    · simp [eligible, ha2, hb2, firstTask, before, ha, hb]
    · simp [hba]
  have p3 : popTask { db with tasks := [b] } noFaults n3 =
      { task := b, err := none, db := { db with tasks := [] } } := by
    rw [popTask_first _ n3 b]
    · simp
    · simp [eligible, hb3, firstTask]
    · simp
  have e1 : popTask db ({ now := n1 } : PopCall).faults ({ now := n1 } : PopCall).now
      = popTask db noFaults n1 := rfl
  simp only [runPops, List.map]
  rw [e1, p1]
  have e2 : popTask { db with tasks := [a, b] } ({ now := n2 } : PopCall).faults
      ({ now := n2 } : PopCall).now = popTask { db with tasks := [a, b] } noFaults n2 := rfl
  rw [e2, p2]
  have e3 : popTask { db with tasks := [b] } ({ now := n3 } : PopCall).faults
      ({ now := n3 } : PopCall).now = popTask { db with tasks := [b] } noFaults n3 := rfl
  rw [e3, p3]

/-- C2, priority ordering of Dequeue. For every store, fault record and clock
reading, a dequeue that hands out a task (no error, not the empty result) returns a
row of the queue whose availability time is at or before the clock reading and
whose priority is at least the priority of every queued task available at that
reading. In particular a queue of three tasks with priorities 5, 1, 9 (distinct
keys), all available, yields them to three successive dequeues in the order 9, 5, 1,
each call removing the task it returns. -/
theorem popTask_priority_order :
    (∀ (db : DB) (f : Faults) (now : Time), (popTask db f now).valid = true →
      (popTask db f now).task ∈ db.tasks ∧ (popTask db f now).task.Available ≤ now ∧
      ∀ t ∈ db.tasks, t.Available ≤ now → t.Priority ≤ (popTask db f now).task.Priority) ∧
    (∀ (a b c : Task) (db : DB) (n1 n2 n3 : Time), db.tasks = [a, b, c] →
      a.Priority = 5 → b.Priority = 1 → c.Priority = 9 →
      a.ID ≠ b.ID → a.ID ≠ c.ID → b.ID ≠ c.ID →
      a.Available ≤ n1 → b.Available ≤ n1 → c.Available ≤ n1 → n1 ≤ n2 → n2 ≤ n3 →
      (runPops db [{ now := n1 }, { now := n2 }, { now := n3 }]).map
          (fun r => (r.task, r.err, r.db.tasks))
        = [(c, none, [a, b]), (a, none, [b]), (b, none, [])]) := by
  constructor
  · intro db f now h
    obtain ⟨hmem, hmax, _⟩ := popTask_valid_removes db f now h
    have hm := List.mem_filter.mp hmem
    refine ⟨hm.1, by simpa using hm.2, ?_⟩
    intro t ht hav
    exact hmax t (List.mem_filter.mpr ⟨ht, by simpa using hav⟩)
  · intro a b c db n1 n2 n3 hq ha hb hc hab hac hbc ha1 hb1 hc1 h12 h23
    exact three_priorities a b c db n1 n2 n3 hq ha hb hc hab hac hbc ha1 hb1 hc1 h12 h23

/-- Witness of C2: the sample queue with priorities 5, 1, 9 and three dequeues at
instants 10, 20, 30. -/
theorem popTask_priority_order_witness :
    (popTask priorityDB noFaults 10).valid = true ∧
    (popTask priorityDB noFaults 10).task.Priority = 9 ∧
    (∀ t ∈ priorityDB.tasks, t.Available ≤ 10 →
      t.Priority ≤ (popTask priorityDB noFaults 10).task.Priority) ∧
    (runPops priorityDB threePops).map (fun r => (r.task, r.err, r.db.tasks))
      = [({ ID := 3, Submission := 13, Priority := 9, Available := 0 }, none,
          [{ ID := 1, Submission := 11, Priority := 5, Available := 0 },
           { ID := 2, Submission := 12, Priority := 1, Available := 0 }]),
         ({ ID := 1, Submission := 11, Priority := 5, Available := 0 }, none,
          [{ ID := 2, Submission := 12, Priority := 1, Available := 0 }]),
         ({ ID := 2, Submission := 12, Priority := 1, Available := 0 }, none, [])] :=
  ⟨by decide, by decide,
    (popTask_priority_order.1 priorityDB noFaults 10 (by decide)).2.2,
    popTask_priority_order.2
      { ID := 1, Submission := 11, Priority := 5, Available := 0 }
      { ID := 2, Submission := 12, Priority := 1, Available := 0 }
      { ID := 3, Submission := 13, Priority := 9, Available := 0 }
      priorityDB 10 20 30 rfl rfl rfl rfl (by decide) (by decide) (by decide)
      (by decide) (by decide) (by decide) (by decide) (by decide)⟩

/-! ## At-most-once dequeue -/

theorem eligible_sublist (db db' : DB) (T : Time) (h : db'.tasks.Sublist db.tasks) :
    (eligible db' T).Sublist (eligible db T) :=
  List.Sublist.filter _ h

theorem runPops_handedOut (calls : List PopCall) (T : Time) :
    ∀ db : DB, (∀ c ∈ calls, c.now ≤ T) →
      ((handedOut (runPops db calls)).map Task.ID).Nodup ∧
      (handedOut (runPops db calls)).length ≤ (eligible db T).length ∧
      ∀ t ∈ handedOut (runPops db calls), t ∈ eligible db T := by
  induction calls with
  | nil =>
    intro db _
    simp [runPops, handedOut]
  | cons c cs ih =>
    intro db hT
    have hc : c.now ≤ T := hT c (List.mem_cons_self _ _)
    obtain ⟨hnd, hlen, hmem⟩ := ih (popTask db c.faults c.now).db
      (fun c' h' => hT c' (List.mem_cons_of_mem _ h'))
    have hsub := eligible_sublist db _ T (popTask_tasks_sublist db c.faults c.now)
    by_cases hv : (popTask db c.faults c.now).valid = true
    · obtain ⟨hel, _, l1, l2, hsplit, hafter, hids⟩ := popTask_valid_removes db c.faults c.now hv
      have hrun : handedOut (runPops db (c :: cs))
          = (popTask db c.faults c.now).task
              :: handedOut (runPops (popTask db c.faults c.now).db cs) := by
        simp [runPops, handedOut, List.filter_cons, hv]
      have helT : (popTask db c.faults c.now).task ∈ eligible db T := by
        have hm := List.mem_filter.mp hel
        refine List.mem_filter.mpr ⟨hm.1, ?_⟩
        have h1 : (popTask db c.faults c.now).task.Available ≤ c.now := by simpa using hm.2
        simpa using le_trans h1 hc
      have hfresh : ∀ t ∈ handedOut (runPops (popTask db c.faults c.now).db cs),
          t.ID ≠ (popTask db c.faults c.now).task.ID := by
        intro t ht
        have h1 := (List.mem_filter.mp (hmem t ht)).1
        rw [hafter] at h1
        exact hids t h1
      have hcount : (eligible (popTask db c.faults c.now).db T).length + 1
          = (eligible db T).length := by
        have hav : (popTask db c.faults c.now).task.Available ≤ T := by
          simpa using (List.mem_filter.mp helT).2
        simp only [eligible, hafter, hsplit, List.filter_append, List.filter_cons, hav,
          decide_True, if_true, List.length_append, List.length_cons]
        omega
      rw [hrun]
      refine ⟨?_, ?_, ?_⟩
      · simp only [List.map_cons, List.nodup_cons, List.mem_map, not_exists, not_and]
        exact ⟨fun t ht heq => hfresh t ht heq, hnd⟩
      · simp only [List.length_cons]
        omega
      · intro t ht
        rcases List.mem_cons.mp ht with rfl | ht
        · exact helT
        · exact hsub.subset (hmem t ht)
    · have hrun : handedOut (runPops db (c :: cs))
          = handedOut (runPops (popTask db c.faults c.now).db cs) := by
        simp [runPops, handedOut, List.filter_cons, hv]
      rw [hrun]
      exact ⟨hnd, le_trans hlen hsub.length_le, fun t ht => hsub.subset (hmem t ht)⟩

/-- C3, at-most-once dequeue. A dequeue that hands out a task removes exactly that
row from the queue: the queue splits around the returned task, what is left is the
rows before and after it, unchanged and in order, none of them carries the returned
key, and the other tables are untouched. Hence for every store, every sequence of
dequeues run one after the other (whatever the faults of each) and every instant
`T` bounding their clock readings, the tasks handed out carry pairwise distinct keys,
they are at most as many as the rows eligible at `T`, and each is one of those
rows. -/
theorem popTask_at_most_once :
    (∀ (db : DB) (f : Faults) (now : Time), (popTask db f now).valid = true →
      (∃ l1 l2, db.tasks = l1 ++ (popTask db f now).task :: l2 ∧
        (popTask db f now).db.tasks = l1 ++ l2 ∧
        ∀ x ∈ l1 ++ l2, x.ID ≠ (popTask db f now).task.ID) ∧
      (popTask db f now).db.submissions = db.submissions ∧
      (popTask db f now).db.problems = db.problems ∧
      (popTask db f now).db.users = db.users) ∧
    (∀ (db : DB) (calls : List PopCall) (T : Time), (∀ c ∈ calls, c.now ≤ T) →
      ((handedOut (runPops db calls)).map Task.ID).Nodup ∧
      (handedOut (runPops db calls)).length ≤ (eligible db T).length ∧
      ∀ t ∈ handedOut (runPops db calls), t ∈ eligible db T) := by
  constructor
  · intro db f now h
    exact ⟨(popTask_valid_removes db f now h).2.2, popTask_frame db f now⟩
  · intro db calls T hT
    exact runPops_handedOut calls T db hT

/-- Witness of C3: three dequeues on the sample queue, all eligible at instant 30. -/
theorem popTask_at_most_once_witness :
    (∀ c ∈ threePops, c.now ≤ 30) ∧
    ((handedOut (runPops priorityDB threePops)).map Task.ID).Nodup ∧
    (handedOut (runPops priorityDB threePops)).length ≤ (eligible priorityDB 30).length ∧
    (handedOut (runPops priorityDB threePops)).length = 3 :=
  have h := popTask_at_most_once.2 priorityDB threePops 30 (by decide)
  ⟨by decide, h.1, h.2.1, by decide⟩

/-! ## Delayed visibility -/

theorem createdID_ne_zero (db : DB) (task : Task) : createdID db task ≠ 0 := by
  simp only [createdID]
  split_ifs with h
  · have : (0 : Int) ≤ (db.taskSeq : Int) := Int.ofNat_nonneg _
    omega
  · exact h

theorem pushTask_ok_inv (db : DB) (f : Faults) (task : Task)
    (h : (pushTask db f task).2 = none) :
    (∀ t ∈ db.tasks, t.ID ≠ createdID db task) ∧
    (pushTask db f task).1.tasks = db.tasks ++ [createdRow db task] ∧
    (pushTask db f task).1.submissions = db.submissions := by
  by_cases hi : f.insert = true
  · simp [pushTask, hi] at h
  · by_cases hany : db.tasks.any (fun t => decide (t.ID = createdID db task)) = true
    · simp [pushTask, hi, createTask, hany] at h
    · have hfree : ∀ t ∈ db.tasks, t.ID ≠ createdID db task := by simpa using hany
      refine ⟨hfree, ?_, ?_⟩ <;> simp [pushTask, hi, createTask, hany]

theorem eligible_append (db : DB) (row : Task) (now : Time) (tasks : List Task)
    (h : db.tasks = tasks ++ [row]) :
    eligible db now
      = tasks.filter (fun t => decide (t.Available ≤ now))
        ++ (if row.Available ≤ now then [row] else []) := by
  simp only [eligible, h, List.filter_append, List.filter_cons, List.filter_nil]
  split_ifs <;> simp_all

theorem filter_eq_nil_of_later (tasks : List Task) (now : Time)
    (h : ∀ t ∈ tasks, now < t.Available) :
    tasks.filter (fun t => decide (t.Available ≤ now)) = [] := by
  rw [List.filter_eq_nil_iff]
  intro t ht
  have := h t ht
  simpa using this

/-- C4, delayed visibility. A task is enqueued successfully with an availability
time strictly after `now`; the store appends the created row to the queue. A
dequeue at `now`, whatever the store's faults, does not return that row and leaves
it in the queue; when no other task is eligible and the store answers, it returns
the empty task `Task{Submission: -1}` with no error and leaves the store as it was.
A dequeue at any `now'` at or after the availability time, with no other task
eligible and the store answering, returns that row with no error and leaves the
queue as it was before the enqueue. -/
theorem pushTask_delayed_visibility (db : DB) (fp : Faults) (task : Task) (now : Time)
    (hpush : (pushTask db fp task).2 = none) (hlater : now < task.Available) :
    (pushTask db fp task).1.tasks = db.tasks ++ [createdRow db task] ∧
    (createdRow db task).Submission = task.Submission ∧
    (createdRow db task).Priority = task.Priority ∧
    (createdRow db task).Available = task.Available ∧
    (∀ f : Faults,
      (popTask (pushTask db fp task).1 f now).task ≠ createdRow db task ∧
      createdRow db task ∈ (popTask (pushTask db fp task).1 f now).db.tasks) ∧
    (∀ f : Faults, f.query = false → f.rollback = none →
      (∀ t ∈ db.tasks, now < t.Available) →
      popTask (pushTask db fp task).1 f now
        = { task := emptyTask, err := none, db := (pushTask db fp task).1 }) ∧
    (∀ (f : Faults) (now' : Time), task.Available ≤ now' →
      (∀ t ∈ db.tasks, now' < t.Available) →
      f.query = false → f.delete = false → f.commit = false →
      (popTask (pushTask db fp task).1 f now').task = createdRow db task ∧
      (popTask (pushTask db fp task).1 f now').err = none ∧
      (popTask (pushTask db fp task).1 f now').db.tasks = db.tasks) := by
  obtain ⟨hfree, htasks, _⟩ := pushTask_ok_inv db fp task hpush
  have hrowmem : createdRow db task ∈ (pushTask db fp task).1.tasks := by
    rw [htasks]
    simp
  have hrowid : (createdRow db task).ID = createdID db task := rfl
  have hrowav : (createdRow db task).Available = task.Available := rfl
  refine ⟨htasks, rfl, rfl, rfl, ?_, ?_, ?_⟩
  · intro f
    rcases popTask_cases (pushTask db fp task).1 f now with ⟨hdb, ht⟩ | ⟨t, hfirst, ht, hdb⟩
    · refine ⟨?_, by rw [hdb]; exact hrowmem⟩
      intro heq
      have hid : (popTask (pushTask db fp task).1 f now).task.ID = createdID db task := by
        rw [heq, hrowid]
      rcases ht with ht | ht
      · rw [ht] at hid
        exact createdID_ne_zero db task hid.symm
      · rw [ht] at hid
        exact createdID_ne_zero db task hid.symm
    · have hmem := List.mem_filter.mp (firstTask_mem hfirst)
      have hav : t.Available ≤ now := by simpa using hmem.2
      have hne : t ≠ createdRow db task := by
        intro heq
        rw [heq, hrowav] at hav
        exact absurd hlater (not_lt.mpr hav)
      have hold : t ∈ db.tasks := by
        have h1 := hmem.1
        rw [htasks] at h1
        rcases List.mem_append.mp h1 with h1 | h1
        · exact h1
        · exact absurd (List.mem_singleton.mp h1) hne
      refine ⟨by rw [ht]; exact hne, ?_⟩
      rw [hdb]
      refine List.mem_filter.mpr ⟨hrowmem, ?_⟩
      have := hfree t hold
      simpa [hrowid] using fun h => this h.symm
  · intro f hq hr hnone
    have hel : eligible (pushTask db fp task).1 now = [] := by
      rw [eligible_append _ _ now db.tasks htasks, filter_eq_nil_of_later db.tasks now hnone,
        if_neg (by rw [hrowav]; exact not_le.mpr hlater)]
      rfl
    simp [popTask, hq, hel, firstTask, hr]
  · intro f now' hnow' hnone hq hd hc
    have hel : eligible (pushTask db fp task).1 now' = [createdRow db task] := by
      rw [eligible_append _ _ now' db.tasks htasks, filter_eq_nil_of_later db.tasks now' hnone,
        if_pos (by rw [hrowav]; exact hnow')]
      rfl
    have hold : db.tasks.filter (fun x => decide (x.ID = (createdRow db task).ID)) = [] := by
      rw [List.filter_eq_nil_iff]
      intro t ht
      simpa [hrowid] using hfree t ht
    have hone : ((pushTask db fp task).1.tasks.filter
        (fun x => decide (x.ID = (createdRow db task).ID))).length = 1 := by
      rw [htasks, List.filter_append, hold]
      simp
    have hkeep : (pushTask db fp task).1.tasks.filter
        (fun x => decide (x.ID ≠ (createdRow db task).ID)) = db.tasks := by
      rw [htasks, List.filter_append]
      have h1 : db.tasks.filter (fun x => decide (x.ID ≠ (createdRow db task).ID))
          = db.tasks := by
        rw [List.filter_eq_self]
        intro t ht
        simpa [hrowid] using hfree t ht
      rw [h1]
      simp
    simp only [popTask, hq, hel, firstTask, hd, hone, hc]
    simpa using hkeep

/-- Witness of C4: the sample task, available from instant 60, is enqueued at
instant 50 behind a task that becomes available at instant 100. -/
theorem pushTask_delayed_visibility_witness :
    (pushTask delayedDB noFaults delayedTask).2 = none ∧ (50 : Time) < delayedTask.Available ∧
    popTask (pushTask delayedDB noFaults delayedTask).1 noFaults 50
      = { task := emptyTask, err := none, db := (pushTask delayedDB noFaults delayedTask).1 } ∧
    (popTask (pushTask delayedDB noFaults delayedTask).1 noFaults 60).task
      = { ID := 2, Submission := 12, Priority := 7, Available := 60 } :=
  have h := pushTask_delayed_visibility delayedDB noFaults delayedTask 50 (by decide) (by decide)
  ⟨by decide, by decide,
    h.2.2.2.2.2.1 noFaults rfl rfl (by decide),
    (h.2.2.2.2.2.2 noFaults 60 (by decide) (by decide) rfl rfl rfl).1⟩

end LibraryChecker
